import Mathlib

/-!
Verification development for the AttendoBot attendance gate and
form-submission pipeline.

The definitions below are shallow embeddings of the Python source:
* `src/utils/GoogleForm.py` — URL resolution (`extract_url`), field-id
  discovery (`get_entry_ids`), submission (`submit_response`), and the
  `add_gform_url` configuration flow;
* `src/utils/database.py` — the attendance ledger (`check_hadir`,
  `insert_attendance`, `update_attendance`) and timezone storage
  (`upsert_timezone`);
* `src/app.py` — the `hadir` attendance command (time-window gate,
  duplicate pre-check, submission section).

Instants are modelled as integer seconds since the Unix epoch (UTC);
sub-second precision plays no role in any compared quantity.  Storage
operations are modelled as always succeeding (the store is an external
collaborator; its own failure modes are outside the embedded logic).
-/

namespace AttendoBot

/-! ## JSON values (the parsed `FB_PUBLIC_LOAD_DATA_` blob) -/

/-- A parsed JSON value, as produced by `json.loads` in
`GoogleForm_Url_Handler.fetch_form_data`. -/
inductive J where
  | null
  | bool (b : Bool)
  | num (n : Int)
  | str (s : String)
  | arr (l : List J)
  | obj (kvs : List (String × J))
deriving Repr

/-- Python `data[1] is None`: identity with the JSON null. -/
def J.isNull : J → Bool
  | .null => true
  | _ => false

/-- The Python truthiness test `if not form_data` on a JSON value:
falsy values are `None`, `False`, `0`, `""`, `[]`, `{}`. -/
def J.falsy : J → Bool
  | .null => true
  | .bool b => !b
  | .num n => n == 0
  | .str s => s == ""
  | .arr l => l.isEmpty
  | .obj kvs => kvs.isEmpty

/-- The test `len(data) == 3 and data[1] is None` from
`GoogleForm_Url_Handler.get_entry_ids`. -/
def leafShape (l : List J) : Bool :=
  l.length == 3 &&
    (match l.get? 1 with
     | some b => b.isNull
     | none => false)

/-- Python `yield data[0]`: the first element of a field leaf. -/
def leafFirst (l : List J) : List J :=
  match l.get? 0 with
  | some a => [a]
  | none => []

mutual

/-- Embedding of `GoogleForm_Url_Handler.get_entry_ids` (GoogleForm.py
lines 104-123): depth-first generator over the parsed blob, flattened to
the list of yielded values. -/
def get_entry_ids : J → List J
  | .arr l => if leafShape l then leafFirst l else entryIdsArr l
  | .obj kvs => entryIdsObj kvs
  | _ => []

/-- Python `for item in data: yield from get_entry_ids(item)` over a list. -/
def entryIdsArr : List J → List J
  | [] => []
  | x :: xs => get_entry_ids x ++ entryIdsArr xs

/-- Python `for v in data.values(): yield from get_entry_ids(v)` over a dict's
values in insertion order. -/
def entryIdsObj : List (String × J) → List J
  | [] => []
  | (_, v) :: xs => get_entry_ids v ++ entryIdsObj xs

end

/-! Specification-side definition, written from the spec's words (§4.3):
"a sequence of exactly three elements whose second element is the
null/absent value is a 'field leaf', and its first element is the field's
identifier; any other sequence or map is traversed further", in
first-encountered depth-first order. -/

/-- A field leaf per the spec: exactly three elements, second one null;
returns the field's identifier (the first element). -/
def isFieldLeaf : List J → Option J
  | [a, b, _] => if b.isNull then some a else none
  | _ => none

mutual

/-- The spec's field-identifier sequence: depth-first, first-encountered
order; a field leaf contributes its identifier and is not traversed
further; every other sequence and every map is traversed; scalars
contribute nothing. -/
def specFieldIds : J → List J
  | .arr l =>
    match isFieldLeaf l with
    | some a => [a]
    | none => specFieldIdsArr l
  | .obj kvs => specFieldIdsObj kvs
  | _ => []

/-- Depth-first traversal of a sequence's elements, in order. -/
def specFieldIdsArr : List J → List J
  | [] => []
  | x :: xs => specFieldIds x ++ specFieldIdsArr xs

/-- Depth-first traversal of a map's values, in order. -/
def specFieldIdsObj : List (String × J) → List J
  | [] => []
  | (_, v) :: xs => specFieldIds v ++ specFieldIdsObj xs

end

theorem leafShape_three (a b c : J) : leafShape [a, b, c] = b.isNull := by
  simp [leafShape, List.get?]

mutual

theorem get_entry_ids_eq_spec (j : J) : get_entry_ids j = specFieldIds j := by
  cases j with
  | arr l =>
    cases l with
    | nil => simp [get_entry_ids, specFieldIds, leafShape, isFieldLeaf, entryIdsArr, specFieldIdsArr]
    | cons a l1 =>
      cases l1 with
      | nil =>
        simp [get_entry_ids, specFieldIds, leafShape, isFieldLeaf, entryIdsArr,
              specFieldIdsArr, get_entry_ids_eq_spec a]
      | cons b l2 =>
        cases l2 with
        | nil =>
          simp [get_entry_ids, specFieldIds, leafShape, isFieldLeaf, entryIdsArr,
                specFieldIdsArr, get_entry_ids_eq_spec a, get_entry_ids_eq_spec b]
        | cons c l3 =>
          cases l3 with
          | nil =>
            by_cases hb : b.isNull = true
            · simp [get_entry_ids, specFieldIds, leafShape_three, isFieldLeaf, hb, leafFirst,
                    List.get?]
            · simp [get_entry_ids, specFieldIds, leafShape_three, isFieldLeaf, hb,
                    entryIdsArr_eq_spec [a, b, c]]
          | cons d l4 =>
            simp [get_entry_ids, specFieldIds, leafShape, isFieldLeaf,
                  entryIdsArr_eq_spec (a :: b :: c :: d :: l4)]
  | obj kvs => simpa [get_entry_ids, specFieldIds] using entryIdsObj_eq_spec kvs
  | null => rfl
  | bool b => rfl
  | num n => rfl
  | str s => rfl

theorem entryIdsArr_eq_spec (l : List J) : entryIdsArr l = specFieldIdsArr l := by
  cases l with
  | nil => rfl
  | cons x xs =>
    simp [entryIdsArr, specFieldIdsArr, get_entry_ids_eq_spec x, entryIdsArr_eq_spec xs]

theorem entryIdsObj_eq_spec (kvs : List (String × J)) :
    entryIdsObj kvs = specFieldIdsObj kvs := by
  cases kvs with
  | nil => rfl
  | cons kv xs =>
    obtain ⟨k, v⟩ := kv
    simp [entryIdsObj, specFieldIdsObj, get_entry_ids_eq_spec v, entryIdsObj_eq_spec xs]

end

/-- C5: the field-id extractor agrees with the spec's description: it
yields exactly the first elements of the three-element null-second
sequences (field leaves, not traversed further), in first-encountered
depth-first order, and the empty sequence when no such leaf exists. -/
theorem extractor_yields_spec_leaves (j : J) : get_entry_ids j = specFieldIds j :=
  get_entry_ids_eq_spec j

/-! ## URL resolution (`GoogleForm_Url_Handler.extract_url`) -/

/-- Test `startsList p s = true` iff `p` is an initial segment of `s`
(Python `s.startswith(p)` / the anchored part of a regex attempt). -/
def startsList : List Char → List Char → Bool
  | [], _ => true
  | _ :: _, [] => false
  | p :: ps, x :: xs => p == x && startsList ps xs

/-- Python `pat in s` substring test. -/
def hasSubstr (pat : List Char) : List Char → Bool
  | [] => startsList pat []
  | c :: cs => startsList pat (c :: cs) || hasSubstr pat cs

/-- The regex character class `[a-zA-Z0-9_-]` of the form-id pattern. -/
def isTokChar (c : Char) : Bool :=
  c.isAlphanum || c == '_' || c == '-'

/-- The literal `/d/e/` of the pattern `/d/e/([a-zA-Z0-9_-]+)(?:/|$)`. -/
def tokMarker : List Char := ['/', 'd', '/', 'e', '/']

/-- Greedy run of token characters (the `([a-zA-Z0-9_-]+)` group). -/
def tokRun : List Char → List Char
  | [] => []
  | c :: cs => if isTokChar c then c :: tokRun cs else []

/-- What remains after the greedy token run. -/
def tokRest : List Char → List Char
  | [] => []
  | c :: cs => if isTokChar c then tokRest cs else c :: cs

/-- The `(?:/|$)` tail of the pattern: end of input or a slash. -/
def slashOrEnd : List Char → Bool
  | [] => true
  | c :: _ => c == '/'

/-- Embedding of `re.search(r'/d/e/([a-zA-Z0-9_-]+)(?:/|$)', form_url)`:
try a match attempt at each position left to right; an attempt succeeds
when the literal `/d/e/` matches, the greedy token run is non-empty, and
the run is followed by a slash or the end of the string (backtracking
the greedy `+` cannot help, since a shortened run is followed by a token
character, which is neither `/` nor the end).  Returns the captured
group of the leftmost successful attempt. -/
def findTok : List Char → Option (List Char)
  | [] => none
  | c :: cs =>
    if startsList tokMarker (c :: cs) &&
       !(tokRun (List.drop 5 (c :: cs))).isEmpty &&
       slashOrEnd (tokRest (List.drop 5 (c :: cs)))
    then some (tokRun (List.drop 5 (c :: cs)))
    else findTok cs

/-- Result of the redirect-following `GET` used to expand `forms.gle`
short links: HTTP status and the final URL after redirects. -/
structure FetchRes where
  status : Nat
  finalUrl : List Char

/-- The distinct user-facing error messages of `extract_url` and
`_check_gform_response`, abstracted to their kinds: `notFound` is the
404 message, `privateForm` the non-200 message, `malformed` the
"could not find a valid Google Form ID" message, `unexpected` the
generic message of the `except` branch. -/
inductive UrlErr where
  | notFound
  | privateForm
  | malformed
  | unexpected
deriving DecidableEq, Repr

/-- The literal `"forms.gle"`. -/
def gleStr : List Char := "forms.gle".data

/-- The literal `"https://docs.google.com/forms/d/e/"`, the prefix of the canonical
base returned on success. -/
def canonHead : List Char := "https://docs.google.com/forms/d/e/".data

/-- Embedding of `GoogleForm_Url_Handler.extract_url` (GoogleForm.py
lines 34-57).  `fetch` is the redirect-following `GET`; `none` models a
raised transport exception (caught by the `except` branch). -/
def extract_url (fetch : List Char → Option FetchRes) (form_url : List Char) :
    Option (List Char) × Option UrlErr :=
  match (if hasSubstr gleStr form_url then
           match fetch form_url with
           | none => Sum.inr UrlErr.unexpected
           | some r =>
             if r.status == 404 then Sum.inr UrlErr.notFound
             else if r.status != 200 then Sum.inr UrlErr.privateForm
             else Sum.inl r.finalUrl
         else Sum.inl form_url : List Char ⊕ UrlErr) with
  | Sum.inr e => (none, some e)
  | Sum.inl u =>
    match findTok u with
    | some t => (some (canonHead ++ t), none)
    | none => (none, some UrlErr.malformed)

/-- The URL against which the form-id pattern is searched: the final URL
of the expanding `GET` when the input contains `forms.gle`, the input
itself otherwise. -/
def resolvedUrl (fetch : List Char → Option FetchRes) (form_url : List Char) : List Char :=
  if hasSubstr gleStr form_url then
    match fetch form_url with
    | some r => r.finalUrl
    | none => form_url
  else form_url

/-- The spec's shape of a valid form URL: it contains `/d/e/` followed
by a non-empty token of `[a-zA-Z0-9_-]` characters that is terminated by
a slash or the end of the string; `t` is such a token. -/
def tokenOccurs (s t : List Char) : Prop :=
  t ≠ [] ∧ (∀ c ∈ t, isTokChar c = true) ∧
    ∃ p suf, s = p ++ tokMarker ++ t ++ suf ∧ (suf = [] ∨ ∃ r, suf = '/' :: r)

theorem startsList_iff (p : List Char) : ∀ s, startsList p s = true ↔ ∃ t, s = p ++ t := by
  induction p with
  | nil => intro s; simp [startsList]
  | cons a ps ih =>
    intro s
    cases s with
    | nil => simp [startsList]
    | cons x xs =>
      simp only [startsList, Bool.and_eq_true, beq_iff_eq, ih xs, List.cons_append,
        List.cons.injEq]
      constructor
      · rintro ⟨rfl, t, rfl⟩; exact ⟨t, rfl, rfl⟩
      · rintro ⟨t, rfl, rfl⟩; exact ⟨rfl, t, rfl⟩

theorem tokRun_append_tokRest (l : List Char) : tokRun l ++ tokRest l = l := by
  induction l with
  | nil => rfl
  | cons c cs ih =>
    by_cases h : isTokChar c = true
    · simp [tokRun, tokRest, h, ih]
    · simp [tokRun, tokRest, h]

theorem tokRun_tokChars (l : List Char) : ∀ c ∈ tokRun l, isTokChar c = true := by
  induction l with
  | nil => simp [tokRun]
  | cons c cs ih =>
    by_cases h : isTokChar c = true
    · simp only [tokRun, h, if_true, List.mem_cons]
      rintro x (rfl | hx)
      · exact h
      · exact ih x hx
    · simp [tokRun, h]

theorem tokRun_append_all {t : List Char} (h : ∀ c ∈ t, isTokChar c = true)
    (suf : List Char) : tokRun (t ++ suf) = t ++ tokRun suf := by
  induction t with
  | nil => rfl
  | cons c cs ih =>
    have hc : isTokChar c = true := h c (by simp)
    simp only [List.cons_append, tokRun, hc, if_true, List.append_eq]
    rw [ih (fun x hx => h x (by simp [hx]))]

theorem tokRest_append_all {t : List Char} (h : ∀ c ∈ t, isTokChar c = true)
    (suf : List Char) : tokRest (t ++ suf) = tokRest suf := by
  induction t with
  | nil => rfl
  | cons c cs ih =>
    have hc : isTokChar c = true := h c (by simp)
    simp only [List.cons_append, tokRest, hc, if_true, List.append_eq]
    exact ih (fun x hx => h x (by simp [hx]))

theorem findTok_sound : ∀ s t, findTok s = some t → tokenOccurs s t := by
  intro s
  induction s with
  | nil => intro t h; simp [findTok] at h
  | cons c cs ih =>
    intro t h
    rw [findTok] at h
    by_cases hcond : (startsList tokMarker (c :: cs) &&
        !(tokRun (List.drop 5 (c :: cs))).isEmpty &&
        slashOrEnd (tokRest (List.drop 5 (c :: cs)))) = true
    · rw [if_pos hcond] at h
      simp only [Bool.and_eq_true] at hcond
      obtain ⟨⟨h1, h2⟩, h3⟩ := hcond
      obtain ⟨t0, ht0⟩ := (startsList_iff tokMarker (c :: cs)).mp h1
      have hdrop : List.drop 5 (c :: cs) = t0 := by
        rw [ht0]
        exact List.drop_left tokMarker t0
      rw [hdrop] at h h2 h3
      obtain rfl : tokRun t0 = t := by injection h
      refine ⟨?_, tokRun_tokChars t0, [], tokRest t0, ?_, ?_⟩
      · intro hemp
        rw [hemp] at h2
        simp at h2
      · conv_lhs => rw [ht0, ← tokRun_append_tokRest t0]
        simp
      · cases hrest : tokRest t0 with
        | nil => exact Or.inl rfl
        | cons d ds =>
          rw [hrest] at h3
          have : d = '/' := by simpa [slashOrEnd] using h3
          exact Or.inr ⟨ds, by rw [this]⟩
    · rw [if_neg hcond] at h
      obtain ⟨hne, htok, p, suf, hs, hsuf⟩ := ih t h
      exact ⟨hne, htok, c :: p, suf, by rw [hs]; simp, hsuf⟩

theorem findTok_complete_aux (t suf : List Char) (hne : t ≠ [])
    (htok : ∀ c ∈ t, isTokChar c = true)
    (hsuf : suf = [] ∨ ∃ r, suf = '/' :: r) :
    ∀ p s, s = p ++ tokMarker ++ t ++ suf → ∃ u, findTok s = some u := by
  intro p
  induction p with
  | nil =>
    intro s hs
    have hrun0 : tokRun suf = [] := by
      rcases hsuf with rfl | ⟨r, rfl⟩
      · rfl
      · simp [tokRun, isTokChar]
    have hrest0 : tokRest suf = suf := by
      rcases hsuf with rfl | ⟨r, rfl⟩
      · rfl
      · simp [tokRest, isTokChar]
    have hse : slashOrEnd suf = true := by
      rcases hsuf with rfl | ⟨r, rfl⟩
      · rfl
      · simp [slashOrEnd]
    simp only [List.nil_append] at hs
    have hs' : s = '/' :: ('d' :: '/' :: 'e' :: '/' :: (t ++ suf)) := by
      rw [hs]; rfl
    rw [hs', findTok]
    have hstart : startsList tokMarker ('/' :: 'd' :: '/' :: 'e' :: '/' :: (t ++ suf)) = true := by
      rw [startsList_iff]
      exact ⟨t ++ suf, rfl⟩
    have hdrop : List.drop 5 ('/' :: 'd' :: '/' :: 'e' :: '/' :: (t ++ suf)) = t ++ suf := rfl
    rw [if_pos]
    · exact ⟨tokRun (List.drop 5 ('/' :: 'd' :: '/' :: 'e' :: '/' :: (t ++ suf))), rfl⟩
    · rw [hdrop, hstart, tokRun_append_all htok, tokRest_append_all htok, hrun0, hrest0,
        List.append_nil, hse]
      simp [hne]
  | cons c p' ihp =>
    intro s hs
    have hs' : s = c :: (p' ++ tokMarker ++ t ++ suf) := by
      rw [hs]; simp
    obtain ⟨u, hu⟩ := ihp (p' ++ tokMarker ++ t ++ suf) rfl
    rw [hs', findTok]
    by_cases hcond : (startsList tokMarker (c :: (p' ++ tokMarker ++ t ++ suf)) &&
        !(tokRun (List.drop 5 (c :: (p' ++ tokMarker ++ t ++ suf)))).isEmpty &&
        slashOrEnd (tokRest (List.drop 5 (c :: (p' ++ tokMarker ++ t ++ suf))))) = true
    · rw [if_pos hcond]; exact ⟨_, rfl⟩
    · rw [if_neg hcond]; exact ⟨u, hu⟩

theorem findTok_complete {s t : List Char} (h : tokenOccurs s t) :
    ∃ u, findTok s = some u := by
  obtain ⟨hne, htok, p, suf, hs, hsuf⟩ := h
  exact findTok_complete_aux t suf hne htok hsuf p s hs

theorem extract_url_scan (fetch : List Char → Option FetchRes) (form_url : List Char)
    (h : hasSubstr gleStr form_url = true → ∃ r, fetch form_url = some r ∧ r.status = 200) :
    extract_url fetch form_url =
      (match findTok (resolvedUrl fetch form_url) with
       | some t => (some (canonHead ++ t), none)
       | none => (none, some UrlErr.malformed)) := by
  unfold extract_url resolvedUrl
  by_cases hg : hasSubstr gleStr form_url = true
  · obtain ⟨r, hr, hst⟩ := h hg
    have h404 : (r.status == 404) = false := by simp [hst]
    have hne : (r.status != 200) = false := by simp [hst]
    rw [if_pos hg, if_pos hg, hr]
    simp only [h404, Bool.false_eq_true, if_false, hne]
  · rw [if_neg hg, if_neg hg]

/-- C6: given that a `forms.gle` link expands through a single
redirect-following `GET` with status 200, the resolver returns the
canonical base `https://docs.google.com/forms/d/e/<token>` exactly when
the resolved URL contains a `/d/e/<token>` occurrence terminated by a
slash or the end of the string, and fails with the malformed-URL error
for every resolved URL of any other shape. -/
theorem extract_url_canonical (fetch : List Char → Option FetchRes) (form_url : List Char)
    (h : hasSubstr gleStr form_url = true → ∃ r, fetch form_url = some r ∧ r.status = 200) :
    ((∃ t, tokenOccurs (resolvedUrl fetch form_url) t) →
      ∃ t, tokenOccurs (resolvedUrl fetch form_url) t ∧
        extract_url fetch form_url = (some (canonHead ++ t), none)) ∧
    ((∀ t, ¬ tokenOccurs (resolvedUrl fetch form_url) t) →
      extract_url fetch form_url = (none, some UrlErr.malformed)) := by
  have hscan := extract_url_scan fetch form_url h
  constructor
  · rintro ⟨t, ht⟩
    obtain ⟨u, hu⟩ := findTok_complete ht
    refine ⟨u, findTok_sound _ u hu, ?_⟩
    rw [hscan, hu]
  · intro hnone
    cases hf : findTok (resolvedUrl fetch form_url) with
    | some u => exact absurd (findTok_sound _ u hf) (hnone u)
    | none => rw [hscan, hf]

/-- A fetch oracle that always reports a transport failure; the example
URL below never triggers it (it is not a `forms.gle` link). -/
def noFetch : List Char → Option FetchRes := fun _ => none

/-- A concrete long-form URL for the resolver witness. -/
def exUrl : List Char := "https://docs.google.com/forms/d/e/XYZ/viewform".data

theorem extract_url_canonical_witness :
    ∃ t, tokenOccurs (resolvedUrl noFetch exUrl) t ∧
      extract_url noFetch exUrl = (some (canonHead ++ t), none) := by
  have hres : resolvedUrl noFetch exUrl = exUrl := by decide
  have hocc : tokenOccurs (resolvedUrl noFetch exUrl) ("XYZ".data) := by
    rw [hres]
    exact ⟨by decide, by decide, "https://docs.google.com/forms".data, "/viewform".data,
      by decide, Or.inr ⟨"viewform".data, by decide⟩⟩
  exact (extract_url_canonical noFetch exUrl (fun hh => absurd hh (by decide))).1 ⟨_, hocc⟩

/-! ## Submission (`GoogleForm_Url_Handler.submit_response`) -/

/-- Outcome of the `POST` to the submit endpoint: a response with an
HTTP status, or a raised `httpx.RequestError` (transport error). -/
inductive PostResult where
  | ok (status : Nat)
  | transportErr
deriving DecidableEq, Repr

/-- Embedding of `GoogleForm_Url_Handler.submit_response` (GoogleForm.py
lines 71-82): appends `/formResponse` to the form URL, posts the payload
there, and returns `status == 200 or status == 302`; a raised
`httpx.RequestError` is caught and yields `False`.  `post` maps the
target URL (the payload being fixed by the caller) to the outcome. -/
def submit_response (post : List Char → PostResult) (form_url : List Char) : Bool :=
  match post (form_url ++ "/formResponse".data) with
  | .ok s => s == 200 || s == 302
  | .transportErr => false

/-- C7: the submission client reports success iff the `POST` to the
submit endpoint yields HTTP 200 or 302; every other status and every
transport error yields the failure result `false` (returned, not
raised: the embedding is a total function). -/
theorem submit_success_iff (post : List Char → PostResult) (form_url : List Char) :
    submit_response post form_url = true ↔
      ∃ n, post (form_url ++ "/formResponse".data) = PostResult.ok n ∧
        (n = 200 ∨ n = 302) := by
  unfold submit_response
  cases hp : post (form_url ++ "/formResponse".data) with
  | ok s => simp [hp]
  | transportErr => simp [hp]

/-! ## Time arithmetic

Instants are integer seconds since the Unix epoch (UTC).  A guild's
timezone is a whole-hour offset `δ`; `astimezone(timezone(timedelta(hours=δ)))`
shifts the instant by `δ * 3600` seconds. 1970-01-01 was a Thursday
(ISO weekday 4). -/

/-- Python `datetime.date()` of an instant, as a day number since the epoch
(floor division, so it is correct for pre-1970 instants too). -/
def utcDate (t : Int) : Int := t.fdiv 86400

/-- The shifted instant used for all local-time fields. -/
def localInstant (δ t : Int) : Int := t + δ * 3600

/-- Python `.isoweekday()` of an instant interpreted in its own clock:
Monday = 1 … Sunday = 7. -/
def isoWeekday (t : Int) : Int := (t.fdiv 86400 + 3).emod 7 + 1

/-- Python `.time()` of an instant interpreted in its own clock, in seconds
since midnight. -/
def timeOfDay (t : Int) : Int := t.emod 86400

/-- The calendar date of an instant in the guild's offset clock. -/
def localDate (δ t : Int) : Int := (localInstant δ t).fdiv 86400

/-- A fully configured attendance window row (`day, start_hour,
start_minute, end_hour, end_minute` on the `guilds` table). -/
structure Window where
  day : Int
  start_hour : Int
  start_minute : Int
  end_hour : Int
  end_minute : Int
deriving DecidableEq, Repr

/-- Embedding of the time-window gate of `Attendance.hadir` (app.py
lines 68-84): with no window row (or a null `day`) the request proceeds;
otherwise the current local time is compared against the window built by
`current_time.replace(hour=…, minute=…, second=0, microsecond=0)`, and
the request is denied when `today != record["day"] or not (start <=
current_time <= end)`. -/
def windowAdmit (δ : Int) (w : Option Window) (now : Int) : Bool :=
  match w with
  | none => true
  | some win =>
    if isoWeekday (localInstant δ now) ≠ win.day ∨
       ¬(win.start_hour * 3600 + win.start_minute * 60 ≤ timeOfDay (localInstant δ now) ∧
         timeOfDay (localInstant δ now) ≤ win.end_hour * 3600 + win.end_minute * 60)
    then false else true

/-- C3: the window gate admits every request when no window is
configured; with a configured window it admits a request iff the local
weekday (after applying the guild's UTC offset) equals the configured
weekday and the local time of day lies between the configured start and
end times, inclusive at both ends. -/
theorem windowAdmit_iff (δ : Int) (w : Option Window) (now : Int) :
    windowAdmit δ w now = true ↔
      (w = none ∨ ∃ win, w = some win ∧
        isoWeekday (localInstant δ now) = win.day ∧
        win.start_hour * 3600 + win.start_minute * 60 ≤ timeOfDay (localInstant δ now) ∧
        timeOfDay (localInstant δ now) ≤ win.end_hour * 3600 + win.end_minute * 60) := by
  cases w with
  | none => simp [windowAdmit]
  | some win =>
    constructor
    · intro h
      by_cases hg : isoWeekday (localInstant δ now) ≠ win.day ∨
          ¬(win.start_hour * 3600 + win.start_minute * 60 ≤ timeOfDay (localInstant δ now) ∧
            timeOfDay (localInstant δ now) ≤ win.end_hour * 3600 + win.end_minute * 60)
      · rw [windowAdmit, if_pos hg] at h
        exact absurd h (by simp)
      · push_neg at hg
        exact Or.inr ⟨win, rfl, hg.1, hg.2⟩
    · rintro (hnone | ⟨win', heq, h1, h2, h3⟩)
      · exact absurd hnone (by simp)
      · obtain rfl : win = win' := Option.some.inj heq
        rw [windowAdmit, if_neg]
        push_neg
        exact ⟨h1, h2, h3⟩

/-! ## Attendance ledger (`DatabaseHandler.check_hadir`) -/

/-- A row of the `attendances` table (primary key `(guild_id, user_id)`):
the UTC timestamp of the last mark and the form URL used. -/
structure ARecord where
  ts : Int
  form_url : List Char
deriving DecidableEq, Repr

/-- The `attendances` table, keyed by `(guild_id, user_id)`. -/
abbrev Store := Nat × Nat → Option ARecord

/-- Embedding of `DatabaseHandler.get_attendance` (database.py lines
104-111): select by guild, user AND form URL, so a stored row with a
different form URL is not returned. -/
def get_attendance (g u : Nat) (form_url : List Char) (s : Store) : Option ARecord :=
  match s (g, u) with
  | some r => if r.form_url = form_url then some r else none
  | none => none

/-- Embedding of `DatabaseHandler.insert_attendance` and
`DatabaseHandler.update_attendance` (database.py lines 113-137): both
set the row keyed by `(guild_id, user_id)` to the current timestamp and
the given form URL (`upsert` replaces on the primary key; `update`
matches the same key). -/
def put_attendance (g u : Nat) (now : Int) (form_url : List Char) (s : Store) : Store :=
  fun k => if k = (g, u) then some ⟨now, form_url⟩ else s k

/-- Embedding of `DatabaseHandler.check_hadir` (database.py lines
139-152), called `check_attendance` at its call site in `app.py`:
read the existing record; if none, insert with the current timestamp
(admitted); if its UTC date differs from the current UTC date, update
(admitted); otherwise return `False` (already marked) with no write. -/
def check_hadir (g u : Nat) (form_url : List Char) (now : Int) (s : Store) : Bool × Store :=
  match get_attendance g u form_url s with
  | some r =>
    if utcDate r.ts ≠ utcDate now then (true, put_attendance g u now form_url s)
    else (false, s)
  | none => (true, put_attendance g u now form_url s)

theorem check_hadir_cases (g u : Nat) (form_url : List Char) (now : Int) (s : Store) :
    check_hadir g u form_url now s = (true, put_attendance g u now form_url s) ∨
    check_hadir g u form_url now s = (false, s) := by
  unfold check_hadir
  cases get_attendance g u form_url s with
  | none => exact Or.inl rfl
  | some r =>
    dsimp only
    by_cases hd : utcDate r.ts ≠ utcDate now
    · rw [if_pos hd]; exact Or.inl rfl
    · rw [if_neg hd]; exact Or.inr rfl

theorem check_hadir_false_iff (g u : Nat) (form_url : List Char) (now : Int) (s : Store) :
    check_hadir g u form_url now s = (false, s) ↔
      ∃ r, s (g, u) = some r ∧ r.form_url = form_url ∧ utcDate r.ts = utcDate now := by
  unfold check_hadir get_attendance
  cases hs : s (g, u) with
  | none => simp
  | some r =>
    dsimp only
    by_cases hu : r.form_url = form_url
    · rw [if_pos hu]
      dsimp only
      by_cases hd : utcDate r.ts ≠ utcDate now
      · rw [if_pos hd]
        constructor
        · intro hcontra
          exact absurd (congrArg Prod.fst hcontra) (by simp)
        · rintro ⟨r', hr', _, hd'⟩
          obtain rfl : r = r' := Option.some.inj hr'
          exact absurd hd' hd
      · rw [if_neg hd]
        push_neg at hd
        constructor
        · intro _
          exact ⟨r, rfl, hu, hd⟩
        · intro _
          rfl
    · rw [if_neg hu]
      dsimp only
      constructor
      · intro hcontra
        exact absurd (congrArg Prod.fst hcontra) (by simp)
      · rintro ⟨r', hr', hu', _⟩
        obtain rfl : r = r' := Option.some.inj hr'
        exact absurd hu' hu

theorem check_hadir_fst_false (g u : Nat) (form_url : List Char) (now : Int) (s : Store)
    (h : (check_hadir g u form_url now s).1 = false) :
    check_hadir g u form_url now s = (false, s) := by
  rcases check_hadir_cases g u form_url now s with hc | hc
  · rw [hc] at h; simp at h
  · exact hc

theorem check_hadir_fst_true (g u : Nat) (form_url : List Char) (now : Int) (s : Store)
    (h : (check_hadir g u form_url now s).1 = true) :
    check_hadir g u form_url now s = (true, put_attendance g u now form_url s) := by
  rcases check_hadir_cases g u form_url now s with hc | hc
  · exact hc
  · rw [hc] at h; simp at h

theorem put_attendance_self (g u : Nat) (now : Int) (form_url : List Char) (s : Store) :
    put_attendance g u now form_url s (g, u) = some ⟨now, form_url⟩ := by
  simp [put_attendance]

/-- The empty `attendances` table. -/
def emptyStore : Store := fun _ => none

/-- A concrete canonical form base. -/
def uA : List Char := "https://docs.google.com/forms/d/e/AAA".data

/-- A second, different canonical form base. -/
def uB : List Char := "https://docs.google.com/forms/d/e/BBB".data

/-- A store holding one record for guild 1, user 42: marked with `uA`
at instant 36000 (1970-01-01 10:00:00 UTC, 17:00 local at UTC+7). -/
def storeA : Store := put_attendance 1 42 36000 uA emptyStore

/-- C4 counterexample: "today" is NOT the guild-offset local date.  At
UTC+7, a request at instant 72000 (1970-01-01 20:00 UTC, which is
already 1970-01-02 in local time) against a record stored at instant
36000 (1970-01-01 both in UTC and locally) is rejected as already
marked with no write, even though the record's local date differs from
the request's local date — because the code compares UTC dates. -/
theorem check_hadir_utc_not_local_cex :
    check_hadir 1 42 uA 72000 storeA = (false, storeA) ∧
    localDate 7 36000 ≠ localDate 7 72000 := by
  constructor
  · rfl
  · decide

/-- C4 amended: `check_hadir` returns `False` (already marked, no
write) exactly when a record for the pair exists with the same form URL
and its stored UTC date equals the current UTC date; the guild's
configured offset plays no part in the comparison. -/
theorem check_hadir_already_marked_iff (g u : Nat) (form_url : List Char) (now : Int)
    (s : Store) :
    check_hadir g u form_url now s = (false, s) ↔
      ∃ r, s (g, u) = some r ∧ r.form_url = form_url ∧ utcDate r.ts = utcDate now :=
  check_hadir_false_iff g u form_url now s

/-! ## Repeated `check_hadir` calls (the per-day admission sequence) -/

/-- A sequence of `check_hadir` calls for a fixed pair and form URL at
the given instants, threading the store; returns the call results in
order and the final store. -/
def runCalls (g u : Nat) (form_url : List Char) (ts : List Int) (s : Store) :
    List Bool × Store :=
  match ts with
  | [] => ([], s)
  | t :: rest =>
    ((check_hadir g u form_url t s).1 ::
       (runCalls g u form_url rest (check_hadir g u form_url t s).2).1,
     (runCalls g u form_url rest (check_hadir g u form_url t s).2).2)

theorem runCalls_marked_all_false (g u : Nat) (form_url : List Char) (d : Int) :
    ∀ (ts : List Int) (s : Store), (∀ t ∈ ts, utcDate t = d) →
      (∃ r, s (g, u) = some r ∧ r.form_url = form_url ∧ utcDate r.ts = d) →
      ((runCalls g u form_url ts s).1.count true) = 0 := by
  intro ts
  induction ts with
  | nil => intro s _ _; rfl
  | cons t rest ih =>
    intro s hday hmark
    obtain ⟨r, hr, hurl, hd⟩ := hmark
    have hfalse : check_hadir g u form_url t s = (false, s) := by
      rw [check_hadir_false_iff]
      exact ⟨r, hr, hurl, by rw [hd, hday t (by simp)]⟩
    rw [runCalls, hfalse]
    simpa [List.count_cons] using
      ih s (fun x hx => hday x (by simp [hx])) ⟨r, hr, hurl, hd⟩

/-- C2 counterexample: for a fixed (guildId, userId) pair, two
`check_hadir` calls on the same UTC calendar day are BOTH admitted when
they carry different form URLs, because the duplicate lookup filters on
(guild, user, form_url): the second call does not see the first call's
record. -/
theorem check_hadir_two_admits_cex :
    (check_hadir 1 42 uA 100 emptyStore).1 = true ∧
    (check_hadir 1 42 uB 200 (check_hadir 1 42 uA 100 emptyStore).2).1 = true ∧
    utcDate 100 = utcDate 200 := by
  refine ⟨rfl, ?_, rfl⟩
  rfl

/-- C2 amended: for a fixed (guildId, userId) pair and a fixed form
URL, every sequence of `check_hadir` calls on one calendar day admits
at most one call; all others return already-marked (`false`). -/
theorem runCalls_at_most_one_admit (g u : Nat) (form_url : List Char) (d : Int)
    (ts : List Int) (s : Store) (h : ∀ t ∈ ts, utcDate t = d) :
    ((runCalls g u form_url ts s).1.count true) ≤ 1 := by
  induction ts generalizing s with
  | nil => simp [runCalls]
  | cons t rest ih =>
    rcases check_hadir_cases g u form_url t s with hc | hc
    · rw [runCalls, hc]
      have hzero : ((runCalls g u form_url rest
          (put_attendance g u t form_url s)).1.count true) = 0 :=
        runCalls_marked_all_false g u form_url d rest _
          (fun x hx => h x (by simp [hx]))
          ⟨⟨t, form_url⟩, put_attendance_self g u t form_url s, rfl, h t (by simp)⟩
      simp [List.count_cons, hzero]
    · rw [runCalls, hc]
      simpa [List.count_cons] using ih s (fun x hx => h x (by simp [hx]))

theorem runCalls_at_most_one_admit_witness :
    ((runCalls 1 42 uA [100, 200] emptyStore).1.count true) ≤ 1 :=
  runCalls_at_most_one_admit 1 42 uA 0 [100, 200] emptyStore (by decide)

/-! ## The attendance command's ledger/submission ordering -/

/-- Outcome of the locked section of `Attendance.hadir` (URL
resolution, schema fetch, field discovery, submission): `ok` and `fail`
are `submit_success` true/false, `exn` a raised exception caught by the
command's `except` branch. -/
inductive SubmitStage where
  | ok
  | fail
  | exn
deriving DecidableEq, Repr

/-- The user-visible outcome of the `hadir` command body. -/
inductive HadirOutcome where
  | alreadyMarked
  | recorded
  | submitFailed
  | errored
deriving DecidableEq, Repr

/-- Embedding of the body of `Attendance.hadir` after the window gate
(app.py lines 87-118): the duplicate pre-check (`db.check_attendance`
at the call site, `check_hadir` in the handler) runs first and performs
the ledger write itself; the locked section then resolves, fetches and
submits, but performs no database write in any of its branches (the
source comments "Optionally, update DB here if needed"). -/
def hadir (g u : Nat) (form_url : List Char) (now : Int) (stage : SubmitStage)
    (s : Store) : HadirOutcome × Store :=
  if (check_hadir g u form_url now s).1 = false then
    (.alreadyMarked, (check_hadir g u form_url now s).2)
  else
    match stage with
    | .ok => (.recorded, (check_hadir g u form_url now s).2)
    | .fail => (.submitFailed, (check_hadir g u form_url now s).2)
    | .exn => (.errored, (check_hadir g u form_url now s).2)

/-- C1 counterexample: a failed submission does NOT leave the ledger
unchanged.  Starting from an empty table, a `hadir` call whose
submission fails (e.g. HTTP 500) reports the failure, yet the record
for (1, 42) has been created by the pre-check — it differs from its
value before the call, so the user cannot retry that day. -/
theorem hadir_failed_submit_writes_cex :
    (hadir 1 42 uA 0 SubmitStage.fail emptyStore).1 = HadirOutcome.submitFailed ∧
    (hadir 1 42 uA 0 SubmitStage.fail emptyStore).2 (1, 42) ≠ emptyStore (1, 42) := by
  constructor
  · rfl
  · decide

/-- C1 amended: the ledger write occurs during the duplicate pre-check,
before resolution and submission: the flow's final store is the
pre-check's store for every submission outcome (the submission step
never writes), and when the pre-check admits, the record is already set
to the request's timestamp — so after a failed submission a retry on
the same calendar day is rejected as already marked. -/
theorem hadir_commit_in_precheck (g u : Nat) (form_url : List Char) (now retry : Int)
    (stage : SubmitStage) (s : Store)
    (hday : utcDate retry = utcDate now)
    (hadm : (check_hadir g u form_url now s).1 = true) :
    (hadir g u form_url now stage s).2 = (check_hadir g u form_url now s).2 ∧
    (hadir g u form_url now SubmitStage.fail s).1 = HadirOutcome.submitFailed ∧
    (check_hadir g u form_url retry (hadir g u form_url now SubmitStage.fail s).2).1 =
      false := by
  have hne : ¬((check_hadir g u form_url now s).1 = false) := by
    rw [hadm]; simp
  have hstore : ∀ st : SubmitStage,
      (hadir g u form_url now st s).2 = (check_hadir g u form_url now s).2 := by
    intro st
    unfold hadir
    rw [if_neg hne]
    cases st <;> rfl
  refine ⟨hstore stage, ?_, ?_⟩
  · unfold hadir
    rw [if_neg hne]
  · rw [hstore SubmitStage.fail,
      (check_hadir_fst_true g u form_url now s hadm : _)]
    have : check_hadir g u form_url retry (put_attendance g u now form_url s) =
        (false, put_attendance g u now form_url s) := by
      rw [check_hadir_false_iff]
      exact ⟨⟨now, form_url⟩, put_attendance_self g u now form_url s, rfl, hday.symm⟩
    rw [this]

theorem hadir_commit_in_precheck_witness :
    (hadir 1 42 uA 0 SubmitStage.ok emptyStore).2 = (check_hadir 1 42 uA 0 emptyStore).2 ∧
    (hadir 1 42 uA 0 SubmitStage.fail emptyStore).1 = HadirOutcome.submitFailed ∧
    (check_hadir 1 42 uA 3600 (hadir 1 42 uA 0 SubmitStage.fail emptyStore).2).1 = false :=
  hadir_commit_in_precheck 1 42 uA 0 3600 SubmitStage.ok emptyStore (by decide) (by decide)

/-! ## Configuration flow (`GoogleFormManager.add_gform_url`) -/

/-- A guild's stored form configuration: the resolved endpoint base and
the discovered field identifier (the raw identifier value; the textual
`entry.<id>` formatting is injective in the identifier and plays no
role here). -/
structure GuildRow where
  form_url : Option (List Char)
  entry_id : Option J

/-- The `guilds` table's form-configuration columns, keyed by guild. -/
abbrev CfgStore := Nat → GuildRow

/-- The `Timezone` table: `time_delta` keyed by guild. -/
abbrev TzStore := Nat → Option Int

/-- Modelled from the spec: the three-argument
`upsert_guild_form_url(guild_id, url, entry_id_name)` that
`GoogleFormManager.add_gform_url` calls is not present in
`src/utils/database.py` (which holds an earlier two-argument version
with no entry-id column); per the spec (§4.6) the endpoint and the
field identifier are persisted together as one atomic unit. -/
def upsert_guild_form_url (g : Nat) (url : List Char) (eid : J) (c : CfgStore) : CfgStore :=
  fun k => if k = g then ⟨some url, some eid⟩ else c k

/-- Modelled from the spec: `delete_guild_form_url_and_entry_id_name`,
called by `GoogleFormManager.delete_gform_url`, is not present in
`src/utils/database.py`; per the spec (§3), deletion sets both fields
to absent simultaneously. -/
def delete_guild_form_url_and_entry_id_name (g : Nat) (c : CfgStore) : CfgStore :=
  fun k => if k = g then ⟨none, none⟩ else c k

/-- Embedding of `DatabaseHandler.upsert_timezone` (database.py lines
209-219); its Python default argument is `offset_int = 7`. -/
def upsert_timezone (g : Nat) (off : Int) (tz : TzStore) : TzStore :=
  fun k => if k = g then some off else tz k

/-- The outcomes of the `add_gform_url` command: the early rejections,
the uncaught `IndexError` on `entry_ids[0]`, and success. -/
inductive AddOutcome where
  | notForm
  | urlError
  | dataError
  | crashed
  | saved
deriving DecidableEq, Repr

/-- The literal `"https://docs.google.com/forms/"`. -/
def docsHead : List Char := "https://docs.google.com/forms/".data

/-- The literal `"https://forms.gle/"`. -/
def gleHead : List Char := "https://forms.gle/".data

/-- Embedding of `GoogleFormManager.add_gform_url` (GoogleForm.py lines
144-176).  `fetch` drives `extract_url`; `fdata` is the result of
`fetch_form_data` on the extracted URL (`none` is the network/parse
error path, and `if not form_data` also sends falsy parsed data to the
error path).  When `get_entry_ids` yields nothing, `entry_ids[0]`
raises an uncaught `IndexError` (`crashed`): nothing is persisted.  On
success the endpoint and the field id are persisted together and the
timezone row is upserted with the handler's default offset 7. -/
def add_gform_url (fetch : List Char → Option FetchRes) (fdata : Option J) (g : Nat)
    (url : List Char) (c : CfgStore) (tz : TzStore) : AddOutcome × CfgStore × TzStore :=
  if !(startsList docsHead url || startsList gleHead url) then (.notForm, c, tz)
  else
    match (extract_url fetch url).1 with
    | none => (.urlError, c, tz)
    | some extracted =>
      match fdata with
      | none => (.dataError, c, tz)
      | some d =>
        if d.falsy then (.dataError, c, tz)
        else
          match (get_entry_ids d).head? with
          | none => (.crashed, c, tz)
          | some e =>
            (.saved, upsert_guild_form_url g extracted e c, upsert_timezone g 7 tz)

/-- Embedding of `GoogleFormManager.delete_gform_url` (GoogleForm.py
lines 178-201): read the stored URL; if none is set, do nothing;
otherwise clear the configuration. -/
def delete_gform_url (g : Nat) (c : CfgStore) : CfgStore :=
  match (c g).form_url with
  | none => c
  | some _ => delete_guild_form_url_and_entry_id_name g c

/-- A configuration-time operation on the stores: an `add_gform_url`
command (with its network oracles) or a `delete_gform_url` command. -/
inductive CfgOp where
  | add (g : Nat) (fetch : List Char → Option FetchRes) (fdata : Option J) (url : List Char)
  | del (g : Nat)

/-- Apply one configuration operation to the stores. -/
def applyCfgOp (op : CfgOp) (st : CfgStore × TzStore) : CfgStore × TzStore :=
  match op with
  | .add g fetch fdata url =>
    ((add_gform_url fetch fdata g url st.1 st.2).2.1,
     (add_gform_url fetch fdata g url st.1 st.2).2.2)
  | .del g => (delete_gform_url g st.1, st.2)

/-- Run a sequence of configuration operations. -/
def runCfgOps (ops : List CfgOp) (st : CfgStore × TzStore) : CfgStore × TzStore :=
  match ops with
  | [] => st
  | op :: rest => runCfgOps rest (applyCfgOp op st)

/-- The unconfigured `guilds` table. -/
def initCfg : CfgStore := fun _ => ⟨none, none⟩

/-- The empty `Timezone` table. -/
def initTz : TzStore := fun _ => none

/-- A row is consistent when the endpoint and the field id are present
or absent together. -/
def rowConsistent (row : GuildRow) : Prop :=
  row.form_url.isSome = row.entry_id.isSome

theorem add_gform_url_consistent (fetch : List Char → Option FetchRes) (fdata : Option J)
    (g : Nat) (url : List Char) (c : CfgStore) (tz : TzStore) (k : Nat)
    (h : rowConsistent (c k)) :
    rowConsistent ((add_gform_url fetch fdata g url c tz).2.1 k) := by
  unfold add_gform_url
  by_cases h0 : (!(startsList docsHead url || startsList gleHead url)) = true
  · rw [if_pos h0]; exact h
  · rw [if_neg h0]
    cases (extract_url fetch url).1 with
    | none => exact h
    | some extracted =>
      dsimp only
      cases fdata with
      | none => exact h
      | some d =>
        dsimp only
        by_cases hf : d.falsy = true
        · rw [if_pos hf]; exact h
        · rw [if_neg hf]
          cases (get_entry_ids d).head? with
          | none => exact h
          | some e =>
            dsimp only [rowConsistent, upsert_guild_form_url]
            by_cases hk : k = g
            · rw [if_pos hk]
              rfl
            · rw [if_neg hk]
              exact h

theorem delete_gform_url_consistent (g : Nat) (c : CfgStore) (k : Nat)
    (h : rowConsistent (c k)) : rowConsistent (delete_gform_url g c k) := by
  unfold delete_gform_url
  cases (c g).form_url with
  | none => exact h
  | some v =>
    dsimp only [delete_guild_form_url_and_entry_id_name, rowConsistent]
    by_cases hk : k = g
    · rw [if_pos hk]
      rfl
    · rw [if_neg hk]
      exact h

theorem runCfgOps_consistent (ops : List CfgOp) (st : CfgStore × TzStore)
    (h : ∀ k, rowConsistent (st.1 k)) :
    ∀ k, rowConsistent ((runCfgOps ops st).1 k) := by
  induction ops generalizing st with
  | nil => exact h
  | cons op rest ih =>
    refine ih (applyCfgOp op st) ?_
    intro k
    cases op with
    | add g fetch fdata url => exact add_gform_url_consistent fetch fdata g url st.1 st.2 k (h k)
    | del g => exact delete_gform_url_consistent g st.1 k (h k)

/-- C8: in every state reachable from the unconfigured store through
configuration operations, a guild's form endpoint and its field
identifier are stored together or not at all: each `add_gform_url` run
either rejects (on a resolver or extractor failure, with the stores
untouched) or persists both as one unit, and deletion clears both. -/
theorem config_endpoint_fieldid_together (ops : List CfgOp) (g : Nat) :
    ((runCfgOps ops (initCfg, initTz)).1 g).form_url.isSome =
      ((runCfgOps ops (initCfg, initTz)).1 g).entry_id.isSome :=
  runCfgOps_consistent ops (initCfg, initTz) (fun _ => rfl) g

/-- A parsed blob with no field leaf: `{"a": [1, 2, 3]}` (the inner
list has three elements but its second element is not null). -/
def dBad : J := J.obj [("a", J.arr [J.num 1, J.num 2, J.num 3])]

/-- C9: the callers do NOT guard against an empty identifier sequence.
On a truthy blob with no field leaves the extractor yields `[]`, the
first-identifier selection (`entry_ids[0]`) has nothing to select, and
the `add_gform_url` flow reaches that selection and crashes (uncaught
`IndexError`), persisting nothing — rather than reporting a
`NoFieldsFound` outcome as the spec requires. -/
theorem empty_ids_reach_selection_cex :
    get_entry_ids dBad = [] ∧
    (get_entry_ids dBad).head? = none ∧
    (add_gform_url noFetch (some dBad) 1 exUrl initCfg initTz).1 = AddOutcome.crashed ∧
    (add_gform_url noFetch (some dBad) 1 exUrl initCfg initTz).2.1 = initCfg ∧
    (add_gform_url noFetch (some dBad) 1 exUrl initCfg initTz).2.2 = initTz := by
  exact ⟨rfl, rfl, rfl, rfl, rfl⟩

/-- C10: every `add_gform_url` run that reaches the persist step also
upserts the guild's timezone row with the handler's default offset 7,
so after any successful form-URL configuration the stored offset is 7
regardless of its previous value. -/
theorem add_gform_sets_default_timezone (fetch : List Char → Option FetchRes)
    (fdata : Option J) (g : Nat) (url : List Char) (c : CfgStore) (tz : TzStore)
    (h : (add_gform_url fetch fdata g url c tz).1 = AddOutcome.saved) :
    (add_gform_url fetch fdata g url c tz).2.2 g = some 7 := by
  unfold add_gform_url at h ⊢
  by_cases h0 : (!(startsList docsHead url || startsList gleHead url)) = true
  · rw [if_pos h0] at h
    simp at h
  · rw [if_neg h0] at h ⊢
    revert h
    cases hE : (extract_url fetch url).1 with
    | none =>
      dsimp only
      intro h
      simp at h
    | some extracted =>
      dsimp only
      cases fdata with
      | none =>
        dsimp only
        intro h
        simp at h
      | some d =>
        dsimp only
        by_cases hf : d.falsy = true
        · rw [if_pos hf]
          intro h
          simp at h
        · rw [if_neg hf]
          cases hI : (get_entry_ids d).head? with
          | none =>
            dsimp only
            intro h
            simp at h
          | some e =>
            dsimp only
            intro _
            simp [upsert_timezone]

/-- A parsed blob holding one field leaf `[5, null, 0]`. -/
def dGood : J := J.arr [J.arr [J.num 5, J.null, J.num 0]]

/-- A timezone table whose guild-1 offset is 3 before the call. -/
def tzPrev : TzStore := fun k => if k = 1 then some 3 else none

theorem add_gform_sets_default_timezone_witness :
    (add_gform_url noFetch (some dGood) 1 exUrl initCfg tzPrev).2.2 1 = some 7 :=
  add_gform_sets_default_timezone noFetch (some dGood) 1 exUrl initCfg tzPrev (by decide)

end AttendoBot
